import Mathlib

/-!
Shallow embedding of the core numeric pipeline of the 3D human-pose
prediction repository (integral pose regression): the heatmap decoder's
upsampling geometry, the integral (soft-argmax) joint regressor, the
weighted L1 joint-regression loss, and the training/evaluation engine's
checkpointing, validation reassembly and evaluation dispatch.

Sources embedded:
- `source/models/model_integral.py` (JointHeatmapDeconv2x, JointIntegralRegressor)
- `source/lossfunctions/l1jointregressionloss.py`
- `source/engine.py` (Engine.train / validate / evaluate / save_checkpoint /
  load_checkpoints)
- `train.py` (resume wiring)

Real-valued tensor entries are modelled as `ℝ` where the transcendental
softmax appears and as `ℚ` elsewhere; tensors are total functions on `ℕ`
indices (shape tracked on the side) or nested lists, whichever is closest
to the source's access pattern.
-/

namespace PoseSpec

/-! ## Heatmap decoder upsampling geometry

`JointHeatmapDeconv2x.__init__` (model_integral.py lines 36-52): asserts
`kernel_size in (2, 3, 4)` and selects the (padding, output_padding) pair,
then builds a `ConvTranspose2d` with `stride=2`. -/

/-- The (padding, output_padding) pair chosen by `JointHeatmapDeconv2x` for a
given kernel size; `none` models the failed `assert kernel_size in (2, 3, 4)`. -/
def deconv2xPadding (kernel_size : ℕ) : Option (ℕ × ℕ) :=
  if kernel_size = 2 then some (0, 0)
  else if kernel_size = 3 then some (1, 1)
  else if kernel_size = 4 then some (1, 0)
  else none

/-- Output spatial size of `torch.nn.ConvTranspose2d` along one axis
(dilation 1): `(in - 1) * stride - 2 * padding + kernel_size + output_padding`. -/
def convTranspose2dOutDim (inDim stride padding kernel_size output_padding : ℤ) : ℤ :=
  (inDim - 1) * stride - 2 * padding + kernel_size + output_padding

/-- Output size of one `JointHeatmapDeconv2x` stage (stride is fixed at 2). -/
def deconv2xOutDim (kernel_size : ℕ) (inDim : ℤ) : Option ℤ :=
  (deconv2xPadding kernel_size).map fun pq =>
    convTranspose2dOutDim inDim 2 pq.1 kernel_size pq.2

/-! ## Engine checkpointing

`Engine.train` (engine.py lines 135-138) saves a model snapshot and a
checkpoint when
`(epoch % checkpoint_save_interval == checkpoint_save_interval - 1) or
 (epoch + 1 == num_epochs and DEVICE == "cuda")`. -/

/-- The checkpoint-save condition of `Engine.train`, with the global
`DEVICE == "cuda"` test abstracted to the boolean `isCuda`. -/
def shouldSaveCheckpoint (epoch interval numEpochs : ℕ) (isCuda : Bool) : Bool :=
  (epoch % interval == interval - 1) || (epoch + 1 == numEpochs && isCuda)

/-- The checkpoint record written by `Engine.save_checkpoint` (engine.py
lines 380-387): epoch, the three state dicts, train loss, val loss.
State-dict payloads are abstract type parameters. -/
structure Checkpoint (M O S : Type) where
  epoch : ℕ
  model_state_dict : M
  optimizer_state_dict : O
  lr_scheduler_state_dict : S
  train_loss : ℚ
  val_loss : ℚ

/-- `Engine.save_checkpoint(epoch, tl, vl)` captures the engine's current
model/optimizer/scheduler state together with the epoch and losses. -/
def save_checkpoint {M O S : Type} (epoch : ℕ) (tl vl : ℚ) (m : M) (o : O) (s : S) :
    Checkpoint M O S :=
  { epoch := epoch
    model_state_dict := m
    optimizer_state_dict := o
    lr_scheduler_state_dict := s
    train_loss := tl
    val_loss := vl }

/-- `Engine.load_checkpoints` (engine.py lines 389-402): restores the three
state dicts into the engine and returns `(epoch, train_loss, val_loss)`.
Modelled as returning both the restored states and the returned triple. -/
def load_checkpoints {M O S : Type} (c : Checkpoint M O S) :
    (ℕ × ℚ × ℚ) × (M × O × S) :=
  ((c.epoch, c.train_loss, c.val_loss),
   (c.model_state_dict, c.optimizer_state_dict, c.lr_scheduler_state_dict))

/-- First epoch executed by `Engine.train(epoch_nr)` (engine.py lines
107-109): `epoch = 0; if epoch_nr != 0: epoch = epoch_nr + 1`. `train.py`
passes the epoch returned by `load_checkpoints` here when resuming. -/
def trainStartEpoch (epoch_nr : ℕ) : ℕ :=
  if epoch_nr ≠ 0 then epoch_nr + 1 else 0

/-! ## Weighted L1 joint-regression loss

`l1jointregressionloss.py`. A per-sample prediction or ground-truth joint
tensor of shape (J, c) is a list of J rows, each a list of c rationals; a
visibility vector of shape (J,) is a list of J rationals. -/

/-- One row of `abs(input - target) * weights` with the `(J, 1)` weight
broadcast across the coordinate axis. -/
def weightedAbsRow (p t : List ℚ) (w : ℚ) : ℚ :=
  ((p.zip t).map fun x => |x.1 - x.2| * w).sum

/-- `weighted_l1_loss(input, target, weights, size_average=False, norm=False)`
(l1jointregressionloss.py lines 5-16): `(abs(input - target) * weights).sum()`,
where `weights` is the `(J,)` visibility vector after `unsqueeze(1)`. -/
def weighted_l1_loss_sum (input target : List (List ℚ)) (weights : List ℚ) : ℚ :=
  (((input.zip target).zip weights).map fun x => weightedAbsRow x.1.1 x.1.2 x.2).sum

/-- `L1JointRegressionLoss.regression_loss_2d` (line 45-46): weighted L1 over
only the first two predicted axes (`pred_joints[:, :2]`). -/
def regression_loss_2d (pred gt : List (List ℚ)) (vis : List ℚ) : ℚ :=
  weighted_l1_loss_sum (pred.map (List.take 2)) gt vis

/-- `L1JointRegressionLoss.regression_loss_3d` (line 48-52): weighted L1 over
all three predicted axes. -/
def regression_loss_3d (pred gt : List (List ℚ)) (vis : List ℚ) : ℚ :=
  weighted_l1_loss_sum pred gt vis

/-- Shape test `t.shape == (r, c)` for a rectangular 2-d tensor modelled as a
list of rows. -/
def hasShape2 (t : List (List ℚ)) (r c : ℕ) : Bool :=
  t.length == r && t.all fun row => row.length == c

/-- The per-sample body of `L1JointRegressionLoss.forward` (lines 61-81):
assert the visibility vector has shape (J,), then branch on the ground-truth
shape — (J,2) → 2d loss, (J,3) → 3d loss, anything else raises. -/
def sampleLoss (J : ℕ) (pred gt : List (List ℚ)) (vis : List ℚ) : Except String ℚ :=
  if vis.length = J then
    if hasShape2 gt J 2 then .ok (regression_loss_2d pred gt vis)
    else if hasShape2 gt J 3 then .ok (regression_loss_3d pred gt vis)
    else .error "Invalid shape for batch_joints"
  else .error "Invalid shape for batch_joints_vis"

/-- The loop of `L1JointRegressionLoss.forward` collecting `batch_losses`,
propagating the first raised error. -/
def sampleLosses (J : ℕ) :
    List (List (List ℚ) × List (List ℚ) × List ℚ) → Except String (List ℚ)
  | [] => .ok []
  | (p, gt, vis) :: rest =>
    match sampleLoss J p gt vis with
    | .error e => .error e
    | .ok l => (sampleLosses J rest).map (l :: ·)

/-- `L1JointRegressionLoss.forward(preds, batch_joints, batch_joints_vis)`
(lines 54-84): N and J are read off `preds.shape`; batch sizes must match;
per-sample losses are collected and reduced by mean (`size_average=True`) or
sum. -/
def l1JointForward (size_average : Bool) (preds batch_joints : List (List (List ℚ)))
    (batch_joints_vis : List (List ℚ)) : Except String ℚ :=
  if batch_joints.length = preds.length ∧ batch_joints_vis.length = preds.length then
    match sampleLosses (preds.headD []).length
        ((preds.zip (batch_joints.zip batch_joints_vis)).map
          fun x => (x.1, x.2.1, x.2.2)) with
    | .error e => .error e
    | .ok losses =>
        .ok (if size_average then losses.sum / losses.length else losses.sum)
  else .error "Batch size mismatch"

/-- A ground-truth tensor shape the loss accepts: (J,2) or (J,3). -/
def targetShapeValid (J : ℕ) (gt : List (List ℚ)) : Bool :=
  hasShape2 gt J 2 || hasShape2 gt J 3

/-- Total absolute error between one sample's predicted and ground-truth
joints: `Σ_j Σ_axis |pred - gt|`. -/
def sampleAbsSum (p t : List (List ℚ)) : ℚ :=
  ((p.zip t).map fun x => ((x.1.zip x.2).map fun y => |y.1 - y.2|).sum).sum

/-- Total absolute error over a whole batch. -/
def totalAbsErr (preds targets : List (List (List ℚ))) : ℚ :=
  ((preds.zip targets).map fun x => sampleAbsSum x.1 x.2).sum

/-- Total element count of a batch of per-sample 2-d tensors. -/
def totalCount (preds : List (List (List ℚ))) : ℕ :=
  (preds.map fun p => (p.map List.length).sum).sum

/-- The plain mean absolute error over all elements, as the spec's words
describe it: total absolute error divided by the total element count
(N·J·3 for a (N,J,3) batch). Comparison target for the loss claims. -/
def plainMAE (preds targets : List (List (List ℚ))) : ℚ :=
  totalAbsErr preds targets / totalCount preds

/-! ## Engine.validate prediction reassembly

engine.py lines 283-307. Per-batch prediction arrays (one row per sample;
a row is an opaque `α`) are stacked by `np.asarray`: equal-sized batches
give a regular array that `reshape` flattens, ragged batches give an object
array handled by the "dirty solution" copy loop. The result is trimmed to
the dataset size with `_p[0:len(data_loader.dataset)]`. -/

/-- numpy slice assignment `tp[start:stop] = t`: both bounds are clipped to
the array length (and `stop` to at least `start`); the assignment succeeds
iff the clipped slice length equals `t`'s length (the only case the
reassembly relies on; broadcasting shorter payloads is modelled as failure). -/
def npSetSlice {α : Type} (tp : List α) (start stop : ℕ) (t : List α) :
    Option (List α) :=
  let rstart := min start tp.length
  let rstop := max rstart (min stop tp.length)
  if rstop - rstart = t.length then
    some (tp.take rstart ++ t ++ tp.drop rstop)
  else none

/-- The copy loop of the "dirty solution for partial batches" (engine.py
lines 290-296): `tp[start:end] = t; start = end; end += t.shape[0]`. -/
def dirtyCopy {α : Type} (tp : List α) (start stop : ℕ) :
    List (List α) → Option (List α)
  | [] => some tp
  | t :: rest =>
    match npSetSlice tp start stop t with
    | none => none
    | some tp2 => dirtyCopy tp2 stop (stop + t.length) rest

/-- `Engine.validate`'s reassembly of the per-batch prediction list into a
flat sequence trimmed to the dataset size `M` (engine.py lines 283-307):
equal-length batches are stacked and reshaped (concatenation); otherwise
a zero array of `(nb-1)*len(batch0) + len(batch_last)` rows is allocated
and the batches are copied in by the dirty loop. `none` models a raised
exception (an empty batch list indexes `_p[0]`; a failed slice assignment). -/
def validateReassemble {α : Type} [Inhabited α] (M : ℕ) :
    List (List α) → Option (List α)
  | [] => none
  | b0 :: rest =>
    if (b0 :: rest).all (fun b => b.length == b0.length) then
      some (((b0 :: rest).flatten).take M)
    else
      (dirtyCopy (List.replicate (((b0 :: rest).length - 1) * b0.length +
          ((b0 :: rest).getLast (List.cons_ne_nil b0 rest)).length) default)
        0 b0.length (b0 :: rest)).map (List.take M)

/-! ## Integral (soft-argmax) joint regressor

`JointIntegralRegressor.forward` (model_integral.py lines 114-132). A
heatmap volume of shape (N, J, D, H, W) is a real-valued function of five
`ℕ` indices (entries outside the shape are irrelevant to the results). -/

noncomputable section

/-- `F.softmax(x)` called WITHOUT a `dim` argument, as in
model_integral.py line 119: for the 3-dimensional reshaped tensor
(N, J, D·H·W), PyTorch's implicit-dim rule (`_get_softmax_dim`: dim 0 when
ndim ∈ {0, 1, 3}) normalizes over dimension 0 — the batch axis. -/
def softmaxDim0 (N : ℕ) (s : ℕ → ℕ → ℕ → ℝ) : ℕ → ℕ → ℕ → ℝ :=
  fun n j m => Real.exp (s n j m) / ∑ i in Finset.range N, Real.exp (s i j m)

/-- The `reshape(N, J, D*H*W)` flattening of the heatmap volume (row-major:
flat index m ↦ (m / (H·W), (m % (H·W)) / W, m % W)). -/
def reshapeFlat (H W : ℕ) (hm : ℕ → ℕ → ℕ → ℕ → ℕ → ℝ) : ℕ → ℕ → ℕ → ℝ :=
  fun n j m => hm n j (m / (H * W)) (m % (H * W) / W) (m % W)

/-- The normalized heatmaps after `F.softmax` and `reshape(N, J, D, H, W)`:
entry (n,j,d,h,w) is the softmax output at flat index d·H·W + h·W + w. -/
def heatmapsNormalized (N H W : ℕ) (hm : ℕ → ℕ → ℕ → ℕ → ℕ → ℝ) :
    ℕ → ℕ → ℕ → ℕ → ℕ → ℝ :=
  fun n j d h w => softmaxDim0 N (reshapeFlat H W hm) n j (d * (H * W) + h * W + w)

/-- `x_maps = heatmaps.sum(dim=2).sum(dim=2)`: marginal over depth and
height, leaving a length-W distribution per joint. -/
def xMaps (N D H W : ℕ) (hm : ℕ → ℕ → ℕ → ℕ → ℕ → ℝ) (n j w : ℕ) : ℝ :=
  ∑ d in Finset.range D, ∑ h in Finset.range H, heatmapsNormalized N H W hm n j d h w

/-- `y_maps = heatmaps.sum(dim=2).sum(dim=3)`: marginal over depth and
width, leaving a length-H distribution per joint. -/
def yMaps (N D H W : ℕ) (hm : ℕ → ℕ → ℕ → ℕ → ℕ → ℝ) (n j h : ℕ) : ℝ :=
  ∑ d in Finset.range D, ∑ w in Finset.range W, heatmapsNormalized N H W hm n j d h w

/-- `z_maps = heatmaps.sum(dim=3).sum(dim=3)`: marginal over height and
width, leaving a length-D distribution per joint. -/
def zMaps (N _D H W : ℕ) (hm : ℕ → ℕ → ℕ → ℕ → ℕ → ℝ) (n j d : ℕ) : ℝ :=
  ∑ h in Finset.range H, ∑ w in Finset.range W, heatmapsNormalized N H W hm n j d h w

/-- `JointIntegralRegressor.forward`: the stacked (N, J, 3) output;
axis 0 is `x_preds = (x_maps * arange(W)).sum(dim=2) / W - 0.5`, axis 1 and
2 the y and z analogues. -/
def jointIntegralRegressor (N D H W : ℕ) (hm : ℕ → ℕ → ℕ → ℕ → ℕ → ℝ)
    (n j axis : ℕ) : ℝ :=
  if axis = 0 then
    (∑ w in Finset.range W, xMaps N D H W hm n j w * w) / W - 1/2
  else if axis = 1 then
    (∑ h in Finset.range H, yMaps N D H W hm n j h * h) / H - 1/2
  else
    (∑ d in Finset.range D, zMaps N D H W hm n j d * d) / D - 1/2

end

/-! ## Engine.evaluate dispatch

engine.py lines 321-365: `evaluate` iterates `val_loader.dataset.datasets`
(the ConcatDataset's component datasets, each modelled as its name and its
sample list) and returns on the FIRST dataset named "h36m"; its prediction
for sample n is `preds_in_patch_with_score[n_sample]` — indexed from the
start of the whole concatenated prediction sequence, not from the h36m
dataset's offset within the concatenation. If the loop finds no "h36m",
the function falls through to `return 0.0` with no metric computed. -/

/-- Outcome of `Engine.evaluate`: the `return 0.0` fallthrough (no metric
computed), an evaluation of prediction/sample pairs handed to the h36m
dataset's scoring delegate, or an out-of-range prediction index. -/
inductive EvalOutcome (P Q : Type) where
  | noH36m : EvalOutcome P Q
  | evaluated (pairs : List (P × Q)) : EvalOutcome P Q
  | indexError : EvalOutcome P Q
deriving DecidableEq

/-- `Engine.evaluate`, with the per-sample coordinate transform and scoring
delegate left abstract: what is determined here is which dataset gets
evaluated and which prediction is paired with which sample. -/
def engineEvaluate {P Q : Type} (preds : List P) :
    List (String × List Q) → EvalOutcome P Q
  | [] => .noH36m
  | (name, db) :: rest =>
    if name = "h36m" then
      if db.length ≤ preds.length then
        .evaluated ((preds.take db.length).zip db)
      else .indexError
    else engineEvaluate preds rest

/-- The batching of `torch.utils.data.DataLoader` with `batch_size = B`,
`shuffle=False`, `drop_last` defaulting to False: consecutive chunks of B
samples, the last chunk possibly smaller. -/
def chunkList {α : Type} (B : ℕ) : List α → List (List α)
  | [] => []
  | x :: xs =>
    if B = 0 then []
    else ((x :: xs).take B) :: chunkList B ((x :: xs).drop B)
termination_by xs => xs.length
decreasing_by
  simp only [List.length_drop, List.length_cons]
  omega

end PoseSpec

namespace PoseSpec

/-! ### Theorems: decoder geometry (C9) and checkpointing (C4, C5) -/

/-- C9: for every upsample stage of the heatmap decoder with kernel size
k ∈ {2,3,4}, the (padding, output-padding) pair is exactly (0,0) for k=2,
(1,1) for k=3, (1,0) for k=4, and the stage's output spatial size is exactly
twice the input spatial size, for every input dimension ≥ 1. -/
theorem deconv2x_padding_table_and_doubles
    (k : ℕ) (hk : k = 2 ∨ k = 3 ∨ k = 4) (inDim : ℤ) (_hin : 1 ≤ inDim) :
    (deconv2xPadding 2 = some (0, 0) ∧
     deconv2xPadding 3 = some (1, 1) ∧
     deconv2xPadding 4 = some (1, 0)) ∧
    deconv2xOutDim k inDim = some (2 * inDim) := by
  refine ⟨⟨rfl, rfl, rfl⟩, ?_⟩
  rcases hk with h | h | h <;> subst h <;>
    simp [deconv2xOutDim, deconv2xPadding, convTranspose2dOutDim] <;> ring

/-- Witness for C9 at k = 3, input size 7. -/
theorem deconv2x_padding_table_and_doubles_witness :
    deconv2xOutDim 3 7 = some 14 := by
  have h := deconv2x_padding_table_and_doubles 3 (Or.inr (Or.inl rfl)) 7 (by norm_num)
  simpa using h.2

/-- Helper: `(e + 1) % k = 0` iff `e % k = k - 1`, for `k ≥ 1`. -/
theorem succ_mod_eq_zero_iff {k e : ℕ} (hk : 0 < k) :
    (e + 1) % k = 0 ↔ e % k = k - 1 := by
  rcases Nat.eq_or_lt_of_le hk with h1 | h2
  · simp [← h1]
  · have hr : e % k < k := Nat.mod_lt e hk
    rw [Nat.add_mod, Nat.mod_eq_of_lt h2]
    constructor
    · intro h
      rcases Nat.lt_or_ge (e % k + 1) k with hlt | hge
      · rw [Nat.mod_eq_of_lt hlt] at h
        omega
      · omega
    · intro h
      rw [h]
      have : k - 1 + 1 = k := by omega
      rw [this, Nat.mod_self]

/-- C4 counterexample: at epoch 2 with interval 2, total epochs 3 and a
non-cuda device, epoch 2 is the final epoch (2 + 1 = 3) yet the engine does
not save, refuting the claim that the final epoch unconditionally saves. -/
theorem checkpoint_save_final_epoch_counterexample :
    ¬ (shouldSaveCheckpoint 2 2 3 false = true ↔ ((2 + 1) % 2 = 0 ∨ 2 + 1 = 3)) := by
  decide

/-- C4 (amended): for interval k ≥ 1, the engine saves after epoch e iff
(e + 1) is a multiple of k, or e is the final epoch AND the device is cuda —
the final-epoch save is conditional on `DEVICE == "cuda"`. -/
theorem shouldSaveCheckpoint_iff
    (e k E : ℕ) (cuda : Bool) (hk : 1 ≤ k) :
    shouldSaveCheckpoint e k E cuda = true ↔
      ((e + 1) % k = 0 ∨ (e + 1 = E ∧ cuda = true)) := by
  have hiff := succ_mod_eq_zero_iff (k := k) (e := e) hk
  simp only [shouldSaveCheckpoint, Bool.or_eq_true, beq_iff_eq, Bool.and_eq_true]
  constructor
  · rintro (h | ⟨h1, h2⟩)
    · exact Or.inl (hiff.mpr h)
    · exact Or.inr ⟨h1, h2⟩
  · rintro (h | ⟨h1, h2⟩)
    · exact Or.inl (hiff.mp h)
    · exact Or.inr ⟨h1, h2⟩

/-- Witness for C4 (amended) at e = 3, k = 2, E = 10, cuda = false:
(3 + 1) is a multiple of 2, so the engine saves. -/
theorem shouldSaveCheckpoint_iff_witness :
    shouldSaveCheckpoint 3 2 10 false = true := by
  exact (shouldSaveCheckpoint_iff 3 2 10 false (by decide)).mpr (by decide)

/-- C5 counterexample: a checkpoint saved at epoch 0 round-trips its fields,
but resuming from it starts at epoch 0, not 0 + 1 = 1, because
`Engine.train` treats `epoch_nr = 0` as the fresh-run sentinel. -/
theorem checkpoint_resume_epoch0_counterexample :
    (load_checkpoints (save_checkpoint (M := Unit) (O := Unit) (S := Unit)
        0 (1/10) (2/10) () () ())).1 = (0, 1/10, 2/10) ∧
    trainStartEpoch 0 ≠ 0 + 1 := by
  exact ⟨rfl, by decide⟩

/-- C5 (amended): for every epoch e, train loss t and val loss v, saving a
checkpoint and loading it returns exactly (e, t, v) and restores exactly the
saved model/optimizer/scheduler states; resuming training from it starts at
epoch e + 1 whenever e ≥ 1, while a checkpoint at epoch 0 resumes at epoch 0
(the sentinel value for a fresh run). -/
theorem checkpoint_roundtrip_resume
    {M O S : Type} (e : ℕ) (t v : ℚ) (m : M) (o : O) (s : S) (he : 1 ≤ e) :
    load_checkpoints (save_checkpoint e t v m o s) = ((e, t, v), (m, o, s)) ∧
    trainStartEpoch e = e + 1 ∧ trainStartEpoch 0 = 0 := by
  refine ⟨rfl, ?_, rfl⟩
  have : e ≠ 0 := by omega
  simp [trainStartEpoch, this]

/-- Witness for C5 (amended) at e = 5, t = 1/10, v = 2/10. -/
theorem checkpoint_roundtrip_resume_witness :
    load_checkpoints (save_checkpoint (M := Unit) (O := Unit) (S := Unit)
        5 (1/10) (2/10) () () ()) = ((5, 1/10, 2/10), ((), (), ())) ∧
    trainStartEpoch 5 = 6 := by
  have h := checkpoint_roundtrip_resume (M := Unit) (O := Unit) (S := Unit)
    5 (1/10) (2/10) () () () (by decide)
  exact ⟨h.1, h.2.1⟩

/-! ### Theorems: loss module (C6, C7, C8) -/

/-- Helper: the unaveraged weighted L1 sum vanishes when every visibility
weight is zero. -/
theorem weighted_l1_loss_sum_of_zero_weights
    (input target : List (List ℚ)) (vis : List ℚ) (hv : ∀ w ∈ vis, w = 0) :
    weighted_l1_loss_sum input target vis = 0 := by
  apply List.sum_eq_zero
  intro x hx
  obtain ⟨⟨⟨a, b⟩, w⟩, hmem, rfl⟩ := List.mem_map.mp hx
  have hw : w ∈ vis := (List.of_mem_zip hmem).2
  rw [hv w hw]
  simp [weightedAbsRow]

/-- C7: for every sample whose visibility vector has shape (J,) and is all
zeros, and whose ground-truth tensor has a legal shape, the per-sample loss
computation succeeds (no raise) and contributes exactly 0, whatever the
prediction and target values. -/
theorem sample_loss_all_zero_visibility
    (J : ℕ) (pred gt : List (List ℚ)) (vis : List ℚ)
    (hlen : vis.length = J)
    (hshape : hasShape2 gt J 2 = true ∨ hasShape2 gt J 3 = true)
    (hv : ∀ w ∈ vis, w = 0) :
    sampleLoss J pred gt vis = .ok 0 := by
  have h2 := weighted_l1_loss_sum_of_zero_weights (pred.map (List.take 2)) gt vis hv
  have h3 := weighted_l1_loss_sum_of_zero_weights pred gt vis hv
  unfold sampleLoss
  rcases hshape with h | h
  · simp [hlen, h, regression_loss_2d, h2]
  · by_cases h2d : hasShape2 gt J 2 = true
    · simp [hlen, h2d, regression_loss_2d, h2]
    · simp [hlen, h2d, h, regression_loss_3d, h3]

/-- Witness for C7: one joint, zero visibility, wildly different prediction
and target, 3D ground truth — the contribution is exactly 0. -/
theorem sample_loss_all_zero_visibility_witness :
    sampleLoss 1 [[100, -3, 7]] [[5, 5, 5]] [0] = .ok 0 := by
  exact sample_loss_all_zero_visibility 1 [[100, -3, 7]] [[5, 5, 5]] [0]
    (by decide) (Or.inr (by decide)) (by intro w hw; simp at hw; exact hw)

/-- Helper: a weighted row with weight 1 is the row's absolute-error sum. -/
theorem weightedAbsRow_one (p t : List ℚ) :
    weightedAbsRow p t 1 = ((p.zip t).map fun y => |y.1 - y.2|).sum := by
  simp [weightedAbsRow]

/-- Helper: with all visibility weights 1 (and no weight-vector truncation),
the unaveraged weighted L1 sum is the sample's total absolute error. -/
theorem weighted_l1_loss_sum_of_one_weights :
    ∀ (input target : List (List ℚ)) (vis : List ℚ),
      (∀ w ∈ vis, w = 1) →
      min input.length target.length ≤ vis.length →
      weighted_l1_loss_sum input target vis = sampleAbsSum input target
  | [], target, vis, _, _ => by simp [weighted_l1_loss_sum, sampleAbsSum]
  | a :: as, [], vis, _, _ => by simp [weighted_l1_loss_sum, sampleAbsSum]
  | a :: as, b :: bs, [], _, hlen => by simp at hlen
  | a :: as, b :: bs, w :: ws, hv, hlen => by
    have hw : w = 1 := hv w (List.mem_cons_self w ws)
    have hrest := weighted_l1_loss_sum_of_one_weights as bs ws
      (fun x hx => hv x (List.mem_cons_of_mem w hx)) (by simp at hlen ⊢; omega)
    simp only [weighted_l1_loss_sum, sampleAbsSum, List.zip_cons_cons, List.map_cons,
      List.sum_cons] at hrest ⊢
    rw [hw, weightedAbsRow_one]
    rw [show (((as.zip bs).zip ws).map fun x => weightedAbsRow x.1.1 x.1.2 x.2).sum =
        weighted_l1_loss_sum as bs ws from rfl] at *
    rw [hrest]

/-- Helper: a nonempty ground-truth tensor whose rows have length 3 fails the
(J, 2) shape test. -/
theorem hasShape2_not_two (gt : List (List ℚ)) (J : ℕ) (hJ : 1 ≤ J)
    (hlen : gt.length = J) (hrows : ∀ row ∈ gt, row.length = 3) :
    hasShape2 gt J 2 = false := by
  cases gt with
  | nil => simp at hlen; omega
  | cons r rs =>
    have hr : r.length = 3 := hrows r (List.mem_cons_self r rs)
    simp [hasShape2, hr]

/-- Helper: a (J, 3) ground-truth tensor passes the (J, 3) shape test. -/
theorem hasShape2_three (gt : List (List ℚ)) (J : ℕ)
    (hlen : gt.length = J) (hrows : ∀ row ∈ gt, row.length = 3) :
    hasShape2 gt J 3 = true := by
  simp [hasShape2, hlen, List.all_eq_true]
  intro row hrow
  exact hrows row hrow

/-- Helper: per-sample loss of a fully visible 3D sample is its total
absolute error. -/
theorem sampleLoss_all_ones_3d (J : ℕ) (pred gt : List (List ℚ)) (vis : List ℚ)
    (hJ : 1 ≤ J) (hpl : pred.length = J)
    (hgl : gt.length = J) (hgr : ∀ row ∈ gt, row.length = 3)
    (hvl : vis.length = J) (hv1 : ∀ w ∈ vis, w = 1) :
    sampleLoss J pred gt vis = .ok (sampleAbsSum pred gt) := by
  unfold sampleLoss
  rw [if_pos hvl, hasShape2_not_two gt J hJ hgl hgr, hasShape2_three gt J hgl hgr]
  simp only [Bool.false_eq_true, if_false, if_true, regression_loss_3d]
  rw [weighted_l1_loss_sum_of_one_weights pred gt vis hv1 (by omega)]

/-- Helper: the batch loop on an all-visible batch of 3D samples returns the
list of per-sample total absolute errors. -/
theorem sampleLosses_all_ones_3d (J : ℕ) (hJ : 1 ≤ J) :
    ∀ (preds targets : List (List (List ℚ))) (vises : List (List ℚ)),
      targets.length = preds.length → vises.length = preds.length →
      (∀ p ∈ preds, p.length = J) →
      (∀ t ∈ targets, t.length = J ∧ ∀ row ∈ t, row.length = 3) →
      (∀ v ∈ vises, v.length = J ∧ ∀ w ∈ v, w = 1) →
      sampleLosses J ((preds.zip (targets.zip vises)).map fun x => (x.1, x.2.1, x.2.2)) =
        .ok ((preds.zip targets).map fun x => sampleAbsSum x.1 x.2)
  | [], targets, vises, htl, hvl, _, _, _ => by
    simp [sampleLosses]
  | p :: ps, [], vises, htl, hvl, _, _, _ => by simp at htl
  | p :: ps, t :: ts, [], htl, hvl, _, _, _ => by simp at hvl
  | p :: ps, t :: ts, v :: vs, htl, hvl, hp, ht, hv => by
    have hploc := hp p (List.mem_cons_self p ps)
    have htloc := ht t (List.mem_cons_self t ts)
    have hvloc := hv v (List.mem_cons_self v vs)
    have hrec := sampleLosses_all_ones_3d J hJ ps ts vs
      (by simp at htl; omega) (by simp at hvl; omega)
      (fun x hx => hp x (List.mem_cons_of_mem p hx))
      (fun x hx => ht x (List.mem_cons_of_mem t hx))
      (fun x hx => hv x (List.mem_cons_of_mem v hx))
    simp only [List.zip_cons_cons, List.map_cons, sampleLosses]
    rw [sampleLoss_all_ones_3d J p t v hJ hploc htloc.1 htloc.2 hvloc.1 hvloc.2]
    simp only [List.zip] at hrec ⊢
    rw [hrec]
    rfl

/-- Helper: a batch of (J, 3) samples has N·3·J elements in total. -/
theorem totalCount_eq (preds : List (List (List ℚ))) (J : ℕ)
    (hp : ∀ p ∈ preds, p.length = J ∧ ∀ row ∈ p, row.length = 3) :
    totalCount preds = preds.length * (3 * J) := by
  unfold totalCount
  have h1 : ∀ p ∈ preds, (p.map List.length).sum = 3 * J := by
    intro p hp2
    obtain ⟨hl, hr⟩ := hp p hp2
    have hlen : (p.map List.length).length = J := by simp [hl]
    have hrep : p.map List.length = List.replicate J 3 := by
      rw [← hlen]
      apply List.eq_replicate_length.mpr
      intro b hb
      obtain ⟨row, hrow, rfl⟩ := List.mem_map.mp hb
      exact hr row hrow
    rw [hrep, List.sum_replicate, smul_eq_mul, Nat.mul_comm]
  have hlen2 : ((preds.map fun p => (p.map List.length).sum).length) = preds.length := by
    simp
  have hrep2 : (preds.map fun p => (p.map List.length).sum) =
      List.replicate preds.length (3 * J) := by
    rw [← hlen2]
    apply List.eq_replicate_length.mpr
    intro b hb
    obtain ⟨p, hpmem, rfl⟩ := List.mem_map.mp hb
    exact h1 p hpmem
  rw [hrep2, List.sum_replicate, smul_eq_mul]

/-- C6 counterexample: one sample, one fully visible joint, prediction
(1,2,3) against target (0,0,0). The loss module returns 6 (the mean over
samples of per-sample *sums*), while the plain mean absolute error over all
N·J·3 elements is 2. -/
theorem l1_all_visible_mean_counterexample :
    l1JointForward true [[[1, 2, 3]]] [[[0, 0, 0]]] [[1]] = .ok 6 ∧
    plainMAE [[[1, 2, 3]]] [[[0, 0, 0]]] = 2 ∧ (6 : ℚ) ≠ 2 := by
  refine ⟨?_, ?_, by norm_num⟩
  · simp [l1JointForward, sampleLosses, sampleLoss, hasShape2, regression_loss_3d,
      regression_loss_2d, weighted_l1_loss_sum, weightedAbsRow]
    norm_num [Except.map]
  · simp [plainMAE, totalAbsErr, sampleAbsSum, totalCount]
    norm_num

/-- C6 (amended): for a batch of N ≥ 1 samples with J ≥ 1 joints, all
ground-truth tensors of shape (J,3) and every visibility weight 1, the loss
with mean batch reduction returns the mean over samples of the per-sample
sum of absolute errors, Σ|pred − target| / N — which is 3·J times the plain
mean absolute error over all N·J·3 elements, not the plain MAE itself. -/
theorem l1_forward_all_visible_3d
    (preds targets : List (List (List ℚ))) (vises : List (List ℚ)) (J : ℕ)
    (hN : 1 ≤ preds.length)
    (htl : targets.length = preds.length) (hvl : vises.length = preds.length)
    (hp : ∀ p ∈ preds, p.length = J ∧ ∀ row ∈ p, row.length = 3)
    (ht : ∀ t ∈ targets, t.length = J ∧ ∀ row ∈ t, row.length = 3)
    (hv : ∀ v ∈ vises, v.length = J ∧ ∀ w ∈ v, w = 1)
    (hJ : 1 ≤ J) :
    l1JointForward true preds targets vises =
      .ok (totalAbsErr preds targets / preds.length) ∧
    totalAbsErr preds targets / preds.length = (3 * J : ℚ) * plainMAE preds targets := by
  have hJ0 : (preds.headD []).length = J := by
    cases preds with
    | nil => simp at hN
    | cons a l => exact (hp a (List.mem_cons_self a l)).1
  constructor
  · unfold l1JointForward
    rw [if_pos ⟨htl, hvl⟩, hJ0]
    rw [sampleLosses_all_ones_3d J hJ preds targets vises htl hvl
      (fun x hx => (hp x hx).1) ht hv]
    have hsum : ((preds.zip targets).map fun x => sampleAbsSum x.1 x.2).sum =
        totalAbsErr preds targets := rfl
    have hlen : ((preds.zip targets).map fun x => sampleAbsSum x.1 x.2).length =
        preds.length := by
      simp [List.length_zip, htl]
    simp only [hsum, hlen, if_true]
  · have hcnt := totalCount_eq preds J hp
    unfold plainMAE
    rw [hcnt]
    have hN0 : (preds.length : ℚ) ≠ 0 := by
      have : 0 < preds.length := hN
      positivity
    have hJQ : (3 * J : ℚ) ≠ 0 := by
      have : 0 < J := hJ
      positivity
    push_cast
    field_simp
    ring

/-- Helper: the batch loop fails exactly when some sample's ground-truth
shape is invalid, and otherwise returns the per-sample branch losses
(2d branch for shape (J,2), 3d branch for shape (J,3)). -/
theorem sampleLosses_error_iff (J : ℕ) :
    ∀ l : List (List (List ℚ) × List (List ℚ) × List ℚ),
      (∀ x ∈ l, x.2.2.length = J) →
      ((∃ e, sampleLosses J l = .error e) ↔
        ∃ x ∈ l, targetShapeValid J x.2.1 = false) ∧
      ((∀ x ∈ l, targetShapeValid J x.2.1 = true) →
        sampleLosses J l = .ok (l.map fun x =>
          if hasShape2 x.2.1 J 2 then regression_loss_2d x.1 x.2.1 x.2.2
          else regression_loss_3d x.1 x.2.1 x.2.2))
  | [], _ => by
    constructor
    · constructor
      · rintro ⟨e, he⟩
        simp [sampleLosses] at he
      · rintro ⟨x, hx, _⟩
        simp at hx
    · intro _
      simp [sampleLosses]
  | (p, gt, vis) :: rest, hv => by
    have hvlen : vis.length = J := hv (p, gt, vis) (List.mem_cons_self _ rest)
    have hrec := sampleLosses_error_iff J rest
      (fun x hx => hv x (List.mem_cons_of_mem _ hx))
    by_cases hval : targetShapeValid J gt = true
    · have hok : sampleLoss J p gt vis =
          .ok (if hasShape2 gt J 2 then regression_loss_2d p gt vis
               else regression_loss_3d p gt vis) := by
        unfold sampleLoss
        rw [if_pos hvlen]
        by_cases h2 : hasShape2 gt J 2 = true
        · rw [if_pos h2, if_pos h2]
        · rcases Bool.or_eq_true_iff.mp hval with hh | h3
          · exact absurd hh h2
          · rw [if_neg h2, if_pos h3, if_neg h2]
      constructor
      · constructor
        · rintro ⟨e, he⟩
          simp only [sampleLosses, hok] at he
          rcases hres : sampleLosses J rest with e2 | ls
          · obtain ⟨x, hx, hxv⟩ := hrec.1.mp ⟨e2, hres⟩
            exact ⟨x, List.mem_cons_of_mem _ hx, hxv⟩
          · rw [hres] at he
            simp [Except.map] at he
        · rintro ⟨x, hx, hxv⟩
          rcases List.mem_cons.mp hx with rfl | hx2
          · simp only at hxv
            rw [hval] at hxv
            cases hxv
          · obtain ⟨e2, he2⟩ := hrec.1.mpr ⟨x, hx2, hxv⟩
            refine ⟨e2, ?_⟩
            simp only [sampleLosses, hok, he2, Except.map]
      · intro hall
        have hrest := hrec.2 (fun x hx => hall x (List.mem_cons_of_mem _ hx))
        simp only [sampleLosses, hok, hrest, Except.map, List.map_cons]
    · have htv : targetShapeValid J gt = false := by
        simpa using hval
      have h23 : hasShape2 gt J 2 = false ∧ hasShape2 gt J 3 = false := by
        have := htv
        unfold targetShapeValid at this
        constructor
        · cases hc : hasShape2 gt J 2
          · rfl
          · rw [hc] at this; simp at this
        · cases hc : hasShape2 gt J 3
          · rfl
          · rw [hc] at this; simp at this
      have herr : sampleLoss J p gt vis =
          .error "Invalid shape for batch_joints" := by
        unfold sampleLoss
        rw [if_pos hvlen]
        simp [h23.1, h23.2]
      constructor
      · constructor
        · intro _
          exact ⟨(p, gt, vis), List.mem_cons_self _ rest, htv⟩
        · intro _
          exact ⟨"Invalid shape for batch_joints", by
            simp only [sampleLosses, herr]⟩
      · intro hall
        exact absurd (hall (p, gt, vis) (List.mem_cons_self _ rest)) hval

/-- C8: given matching batch lengths and well-formed (J,) visibility
vectors, the loss forward raises exactly when some sample's ground-truth
shape is outside {(J,2), (J,3)}; when every shape is legal it returns the
configured reduction of the per-sample branch losses, using the 2d branch
(first two predicted axes only) for shape (J,2) and the 3d branch for
(J,3). -/
theorem l1_forward_shape_error_iff
    (sa : Bool) (preds targets : List (List (List ℚ))) (vises : List (List ℚ))
    (J : ℕ) (hJ0 : (preds.headD []).length = J)
    (htl : targets.length = preds.length) (hvl : vises.length = preds.length)
    (hvis : ∀ v ∈ vises, v.length = J) :
    ((∃ e, l1JointForward sa preds targets vises = .error e) ↔
      ∃ gt ∈ targets, targetShapeValid J gt = false) ∧
    ((∀ gt ∈ targets, targetShapeValid J gt = true) →
      l1JointForward sa preds targets vises =
        .ok (if sa then
              ((preds.zip (targets.zip vises)).map fun x =>
                if hasShape2 x.2.1 J 2 then regression_loss_2d x.1 x.2.1 x.2.2
                else regression_loss_3d x.1 x.2.1 x.2.2).sum /
              (((preds.zip (targets.zip vises)).map fun x =>
                if hasShape2 x.2.1 J 2 then regression_loss_2d x.1 x.2.1 x.2.2
                else regression_loss_3d x.1 x.2.1 x.2.2).length : ℚ)
             else
              ((preds.zip (targets.zip vises)).map fun x =>
                if hasShape2 x.2.1 J 2 then regression_loss_2d x.1 x.2.1 x.2.2
                else regression_loss_3d x.1 x.2.1 x.2.2).sum)) := by
  have hvall : ∀ x ∈ (preds.zip (targets.zip vises)).map
      (fun x => (x.1, x.2.1, x.2.2)), x.2.2.length = J := by
    intro x hx
    obtain ⟨y, hy, rfl⟩ := List.mem_map.mp hx
    exact hvis _ (List.of_mem_zip (List.of_mem_zip hy).2).2
  have hbridge : (∃ x ∈ (preds.zip (targets.zip vises)).map
      (fun x => (x.1, x.2.1, x.2.2)), targetShapeValid J x.2.1 = false) ↔
      ∃ gt ∈ targets, targetShapeValid J gt = false := by
    constructor
    · rintro ⟨x, hx, hxv⟩
      obtain ⟨y, hy, rfl⟩ := List.mem_map.mp hx
      exact ⟨y.2.1, (List.of_mem_zip (List.of_mem_zip hy).2).1, hxv⟩
    · rintro ⟨gt, hgt, hgtv⟩
      obtain ⟨i, hi, rfl⟩ := List.mem_iff_getElem.mp hgt
      have hip : i < preds.length := by omega
      have hiv : i < vises.length := by omega
      have hiz : i < (preds.zip (targets.zip vises)).length := by
        simp [List.length_zip]
        omega
      refine ⟨(preds[i], targets[i], vises[i]), ?_, hgtv⟩
      have : (preds.zip (targets.zip vises))[i] =
          (preds[i], targets[i], vises[i]) := by
        simp [List.getElem_zip]
      refine List.mem_map.mpr ⟨(preds[i], (targets[i], vises[i])), ?_, rfl⟩
      rw [← this]
      exact List.getElem_mem hiz
  have hmain := sampleLosses_error_iff J
    ((preds.zip (targets.zip vises)).map fun x => (x.1, x.2.1, x.2.2)) hvall
  constructor
  · rw [← hbridge]
    constructor
    · rintro ⟨e, he⟩
      unfold l1JointForward at he
      rw [if_pos ⟨htl, hvl⟩, hJ0] at he
      rcases hres : sampleLosses J ((preds.zip (targets.zip vises)).map
          fun x => (x.1, x.2.1, x.2.2)) with e2 | ls
      · exact hmain.1.mp ⟨e2, hres⟩
      · rw [hres] at he
        simp at he
    · intro hex
      obtain ⟨e, he⟩ := hmain.1.mpr hex
      refine ⟨e, ?_⟩
      unfold l1JointForward
      rw [if_pos ⟨htl, hvl⟩, hJ0, he]
  · intro hall
    have hok := hmain.2 (by
      intro x hx
      obtain ⟨y, hy, rfl⟩ := List.mem_map.mp hx
      exact hall y.2.1 (List.of_mem_zip (List.of_mem_zip hy).2).1)
    unfold l1JointForward
    rw [if_pos ⟨htl, hvl⟩, hJ0, hok]
    simp only [List.map_map]
    rfl

/-- Witness for C8: a batch of two samples, the second with an illegal (J,1)
ground-truth shape — the forward raises; and a batch with legal (J,2) and
(J,3) shapes — the forward succeeds. -/
theorem l1_forward_shape_error_iff_witness :
    (∃ e, l1JointForward true [[[1, 2, 3]], [[1, 2, 3]]]
        [[[0, 0]], [[0]]] [[1], [1]] = .error e) ∧
    ¬ (∃ e, l1JointForward true [[[1, 2, 3]], [[1, 2, 3]]]
        [[[0, 0]], [[0, 0, 0]]] [[1], [1]] = .error e) := by
  constructor
  · exact (l1_forward_shape_error_iff true [[[1, 2, 3]], [[1, 2, 3]]]
      [[[0, 0]], [[0]]] [[1], [1]] 1 (by decide) (by decide) (by decide)
      (by decide)).1.mpr ⟨[[0]], by decide, by decide⟩
  · intro hex
    obtain ⟨gt, hgt, hgtv⟩ := (l1_forward_shape_error_iff true
      [[[1, 2, 3]], [[1, 2, 3]]] [[[0, 0]], [[0, 0, 0]]] [[1], [1]] 1
      (by decide) (by decide) (by decide) (by decide)).1.mp hex
    simp at hgt
    rcases hgt with rfl | rfl <;> simp [targetShapeValid, hasShape2] at hgtv

/-- Helper: unfolding equation for `chunkList` on a nonempty list. -/
theorem chunkList_cons {α : Type} (B : ℕ) (x : α) (xs : List α) (hB : B ≠ 0) :
    chunkList B (x :: xs) = ((x :: xs).take B) :: chunkList B ((x :: xs).drop B) := by
  rw [chunkList, if_neg hB]

/-- Helper: concatenating the DataLoader batches recovers the dataset. -/
theorem chunkList_flatten {α : Type} (B : ℕ) (hB : B ≠ 0) :
    ∀ xs : List α, (chunkList B xs).flatten = xs
  | [] => by rw [chunkList]; rfl
  | x :: xs => by
    rw [chunkList_cons B x xs hB]
    simp only [List.flatten_cons]
    rw [chunkList_flatten B hB ((x :: xs).drop B)]
    exact List.take_append_drop B (x :: xs)
termination_by xs => xs.length
decreasing_by
  simp only [List.length_drop, List.length_cons]
  omega

/-- Helper: every DataLoader batch has at most B samples. -/
theorem chunkList_length_le {α : Type} (B : ℕ) (hB : B ≠ 0) :
    ∀ (xs : List α), ∀ c ∈ chunkList B xs, c.length ≤ B
  | [] => by rw [chunkList]; intro c hc; cases hc
  | x :: xs => by
    rw [chunkList_cons B x xs hB]
    intro c hc
    rcases List.mem_cons.mp hc with rfl | h2
    · rw [List.length_take]
      omega
    · exact chunkList_length_le B hB ((x :: xs).drop B) c h2
termination_by xs => xs.length
decreasing_by
  simp only [List.length_drop, List.length_cons]
  omega

/-- Helper: every DataLoader batch but the last has exactly B samples. -/
theorem chunkList_dropLast {α : Type} (B : ℕ) (hB : B ≠ 0) :
    ∀ (xs : List α), ∀ c ∈ (chunkList B xs).dropLast, c.length = B
  | [] => by rw [chunkList]; intro c hc; cases hc
  | x :: xs => by
    rw [chunkList_cons B x xs hB]
    by_cases hrest : chunkList B ((x :: xs).drop B) = []
    · rw [hrest]
      intro c hc
      cases hc
    · rw [List.dropLast_cons_of_ne_nil hrest]
      intro c hc
      rcases List.mem_cons.mp hc with rfl | h2
      · have hd : (x :: xs).drop B ≠ [] := by
          intro hd0
          apply hrest
          rw [hd0, chunkList]
        have hlt : B < (x :: xs).length := by
          by_contra hge
          push_neg at hge
          exact hd (List.drop_eq_nil_of_le hge)
        rw [List.length_take]
        omega
      · exact chunkList_dropLast B hB ((x :: xs).drop B) c h2
termination_by xs => xs.length
decreasing_by
  simp only [List.length_drop, List.length_cons]
  omega

/-- Helper: the dirty copy loop, started with the window `[done.length,
done.length + B)` on an array `done ++ rest` whose remaining part holds
exactly the batches' total row count, concatenates the batches in order —
provided every batch has at most B rows and every batch but the last has
exactly B (the DataLoader batch structure). -/
theorem dirtyCopy_concat {α : Type} [Inhabited α] (B : ℕ) :
    ∀ (ts : List (List α)) (done rest : List α),
      rest.length = (ts.map List.length).sum →
      (∀ t ∈ ts, t.length ≤ B) →
      (∀ t ∈ ts.dropLast, t.length = B) →
      dirtyCopy (done ++ rest) done.length (done.length + B) ts =
        some (done ++ ts.flatten)
  | [], done, rest, hlen, _, _ => by
    have : rest = [] := List.eq_nil_of_length_eq_zero (by simpa using hlen)
    subst this
    simp [dirtyCopy]
  | t :: ts', done, rest, hlen, hle, hdl => by
    have htle : t.length ≤ B := hle t (List.mem_cons_self t ts')
    have hslice : npSetSlice (done ++ rest) done.length (done.length + B) t =
        some (done ++ t ++ rest.drop (min B rest.length)) ∧
        min B rest.length = t.length := by
      have hmin : min B rest.length = t.length := by
        cases ts' with
        | nil =>
          have : rest.length = t.length := by simpa using hlen
          omega
        | cons u us =>
          have htB : t.length = B := hdl t (by
            rw [List.dropLast_cons_of_ne_nil (List.cons_ne_nil u us)]
            exact List.mem_cons_self t _)
          have : rest.length = t.length + ((u :: us).map List.length).sum := by
            simpa using hlen
          have hu : u.length ≤ ((u :: us).map List.length).sum := by
            simp only [List.map_cons, List.sum_cons]
            omega
          omega
      refine ⟨?_, hmin⟩
      unfold npSetSlice
      have h1 : min done.length (done ++ rest).length = done.length := by
        simp [List.length_append]
      have h2 : min (done.length + B) (done ++ rest).length =
          done.length + min B rest.length := by
        simp [List.length_append]
        omega
      simp only [h1, h2]
      have h3 : max done.length (done.length + min B rest.length) =
          done.length + min B rest.length := by omega
      rw [h3, if_pos (by omega)]
      rw [List.take_left]
      rw [show (done ++ rest).drop (done.length + min B rest.length) =
          rest.drop (min B rest.length) by simp [List.drop_append]]
    cases ts' with
    | nil =>
      have hrt : rest.length = t.length := by simpa using hlen
      simp only [dirtyCopy, hslice.1]
      have : rest.drop (min B rest.length) = [] := by
        apply List.drop_eq_nil_of_le
        omega
      rw [this]
      simp [dirtyCopy]
    | cons u us =>
      have htB : t.length = B := hdl t (by
        rw [List.dropLast_cons_of_ne_nil (List.cons_ne_nil u us)]
        exact List.mem_cons_self t _)
      have hrec := dirtyCopy_concat B (u :: us) (done ++ t)
        (rest.drop (min B rest.length))
        (by
          rw [List.length_drop, hslice.2]
          simp only [List.map_cons, List.sum_cons] at hlen ⊢
          omega)
        (fun x hx => hle x (List.mem_cons_of_mem t hx))
        (by
          intro x hx
          apply hdl
          rw [List.dropLast_cons_of_ne_nil (List.cons_ne_nil u us)]
          exact List.mem_cons_of_mem t hx)
      have hstart : (done ++ t).length = done.length + B := by
        simp [List.length_append, htB]
      rw [hstart] at hrec
      have hstep : dirtyCopy (done ++ rest) done.length (done.length + B)
          (t :: u :: us) =
          dirtyCopy (done ++ t ++ rest.drop (min B rest.length))
            (done.length + B) (done.length + B + t.length) (u :: us) := by
        simp only [dirtyCopy, hslice.1]
      rw [hstep, htB, hrec]
      simp [List.append_assoc]

/-- Helper: on any batch list with the DataLoader structure (every batch at
most B rows, every batch except the last exactly B rows), `Engine.validate`'s
reassembly returns exactly the concatenation of the batches, trimmed to the
total row count. -/
theorem validateReassemble_concat {α : Type} [Inhabited α] (B : ℕ) :
    ∀ (bs : List (List α)), bs ≠ [] →
      (∀ b ∈ bs, b.length ≤ B) →
      (∀ b ∈ bs.dropLast, b.length = B) →
      validateReassemble ((bs.map List.length).sum) bs = some bs.flatten
  | [], hne, _, _ => absurd rfl hne
  | b0 :: rest, _, hle, hdl => by
    have hsum : ((b0 :: rest).map List.length).sum = (b0 :: rest).flatten.length :=
      (List.length_flatten _).symm
    by_cases hall : ((b0 :: rest).all fun b => b.length == b0.length) = true
    · simp only [validateReassemble, hall, if_true]
      rw [hsum, List.take_length]
    · simp only [validateReassemble, hall, Bool.false_eq_true, if_false]
      have hrest : rest ≠ [] := by
        intro h0
        subst h0
        simp [List.all_cons] at hall
      have hb0 : b0.length = B := hdl b0 (by
        rw [List.dropLast_cons_of_ne_nil hrest]
        exact List.mem_cons_self _ _)
      have hne2 : (b0 :: rest) ≠ [] := List.cons_ne_nil _ _
      have htotal : ((b0 :: rest).length - 1) * b0.length +
          ((b0 :: rest).getLast (List.cons_ne_nil b0 rest)).length =
          ((b0 :: rest).map List.length).sum := by
        conv_rhs => rw [← List.dropLast_append_getLast hne2]
        rw [List.map_append, List.sum_append]
        have hrep : (b0 :: rest).dropLast.map List.length =
            List.replicate ((b0 :: rest).dropLast.map List.length).length B := by
          apply List.eq_replicate_length.mpr
          intro b hb
          obtain ⟨c, hc, rfl⟩ := List.mem_map.mp hb
          exact hdl c hc
        rw [hrep, List.sum_replicate, smul_eq_mul, List.length_map,
          List.length_dropLast, hb0]
        simp
      have happly := dirtyCopy_concat B (b0 :: rest) []
        (List.replicate (((b0 :: rest).length - 1) * b0.length +
          ((b0 :: rest).getLast (List.cons_ne_nil b0 rest)).length) default)
        (by rw [List.length_replicate]; exact htotal) hle hdl
      simp only [List.nil_append, List.length_nil, Nat.zero_add] at happly
      rw [hb0] at happly
      rw [hb0, happly]
      simp [hsum, List.take_length]

/-- C3: for a validation set iterated in DataLoader batches of size B ≥ 1
with the set size not a multiple of B (so the last batch is ragged), the
reassembled prediction sequence is exactly the original sample sequence —
length M, original order, nothing dropped, padded or duplicated. -/
theorem validate_reassemble_exact {α : Type} [Inhabited α]
    (samples : List α) (B : ℕ) (hB : 1 ≤ B)
    (hM : samples.length % B ≠ 0) :
    validateReassemble samples.length (chunkList B samples) = some samples := by
  have hB0 : B ≠ 0 := by omega
  have hne : chunkList B samples ≠ [] := by
    cases samples with
    | nil => simp at hM
    | cons x xs =>
      rw [chunkList_cons B x xs hB0]
      exact List.cons_ne_nil _ _
  have hflat : (chunkList B samples).flatten = samples :=
    chunkList_flatten B hB0 samples
  have hsum : ((chunkList B samples).map List.length).sum = samples.length := by
    rw [← List.length_flatten, hflat]
  have h := validateReassemble_concat B (chunkList B samples) hne
    (chunkList_length_le B hB0 samples) (chunkList_dropLast B hB0 samples)
  rw [hsum, hflat] at h
  exact h

/-- C1 (code evaluation at the failing input): on the uniform zero heatmap
with N = 1, J = 1, D = H = 1, W = 2, the softmax the code actually applies —
`F.softmax` without `dim`, hence dim 0, the batch axis — produces a
flattened per-joint "distribution" of all ones (exp 0 / exp 0), summing to
2, not 1 as the claim requires. -/
theorem softmax_flattened_sum_counterexample :
    (∑ m in Finset.range 2,
      softmaxDim0 1 (reshapeFlat 1 2 fun _ _ _ _ _ => (0 : ℝ)) 0 0 m) = 2 ∧
    (2 : ℝ) ≠ 1 := by
  constructor
  · simp [softmaxDim0, reshapeFlat, Finset.sum_range_succ]
  · norm_num

/-- C2 (code evaluation at the failing input): on the uniform zero heatmap
with N = 1, J = 1, D = H = 1, W = 4, every softmax output is 1 (softmax over
the singleton batch axis), so the x-coordinate evaluates to
(0+1+2+3)/4 − 0.5 = 1, outside [-0.5, 0.5). -/
theorem integral_regressor_uniform_out_of_range :
    jointIntegralRegressor 1 1 1 4 (fun _ _ _ _ _ => (0 : ℝ)) 0 0 0 = 1 ∧
    (1 : ℝ) ∉ Set.Ico (-(1/2) : ℝ) (1/2) := by
  constructor
  · simp [jointIntegralRegressor, xMaps, heatmapsNormalized, softmaxDim0,
      reshapeFlat, Finset.sum_range_succ]
    norm_num
  · simp [Set.mem_Ico]
    norm_num

/-- Helper: the evaluate loop with no "h36m" dataset falls through to the
0.0 return. -/
theorem engineEvaluate_no_h36m {P Q : Type} (preds : List P) :
    ∀ ds : List (String × List Q), (∀ x ∈ ds, x.1 ≠ "h36m") →
      engineEvaluate preds ds = .noH36m
  | [], _ => rfl
  | (name, db) :: rest, h => by
    have hn : name ≠ "h36m" := h (name, db) (List.mem_cons_self _ rest)
    simp only [engineEvaluate, if_neg hn]
    exact engineEvaluate_no_h36m preds rest
      (fun x hx => h x (List.mem_cons_of_mem _ hx))

/-- C10: `Engine.evaluate` returns 0.0 (no metric computed) when no dataset
in the loader is named "h36m"; when one is, only the FIRST such dataset is
evaluated, and the prediction paired with its sample n is taken at index n
from the start of the concatenated prediction sequence — independent of the
datasets preceding or following it in concatenation order. -/
theorem engine_evaluate_first_h36m_from_start {P Q : Type} (preds : List P)
    (pre post : List (String × List Q)) (db : List Q)
    (hpre : ∀ x ∈ pre, x.1 ≠ "h36m") (hlen : db.length ≤ preds.length) :
    engineEvaluate preds (pre ++ ("h36m", db) :: post) =
      .evaluated ((preds.take db.length).zip db) ∧
    (∀ ds : List (String × List Q), (∀ x ∈ ds, x.1 ≠ "h36m") →
      engineEvaluate preds ds = .noH36m) := by
  constructor
  · induction pre with
    | nil =>
      simp [engineEvaluate, hlen]
    | cons d pre ih =>
      have hd : d.1 ≠ "h36m" := hpre d (List.mem_cons_self _ pre)
      obtain ⟨name, dbd⟩ := d
      simp only [List.cons_append, engineEvaluate, if_neg hd]
      exact ih (fun x hx => hpre x (List.mem_cons_of_mem _ hx))
  · exact engineEvaluate_no_h36m preds

/-- Witness for C10: predictions [1,2,3,4] over a concatenation of "mpii"
(2 samples) followed by "h36m" (2 samples): h36m's sample 0 is paired with
prediction 1 — the first of the whole sequence, not the first h36m
prediction — and a loader with only "mpii" yields the 0.0 fallthrough. -/
theorem engine_evaluate_first_h36m_from_start_witness :
    engineEvaluate [1, 2, 3, 4]
      [("mpii", [10, 20]), ("h36m", [30, 40])] =
      .evaluated [(1, 30), (2, 40)] ∧
    engineEvaluate ([1, 2, 3, 4] : List ℕ)
      [("mpii", ([10, 20] : List ℕ))] = .noH36m := by
  have h := engine_evaluate_first_h36m_from_start ([1, 2, 3, 4] : List ℕ)
    [("mpii", ([10, 20] : List ℕ))] [] [30, 40]
    (by intro x hx; simp at hx; subst hx; decide) (by decide)
  exact ⟨h.1, h.2 [("mpii", [10, 20])] (by intro x hx; simp at hx; subst hx; decide)⟩

/-- Witness for C3: M = 5 samples with batch size B = 2 (batches 2, 2, 1) —
the reassembled sequence is exactly the original. -/
theorem validate_reassemble_exact_witness :
    validateReassemble 5 (chunkList 2 [10, 20, 30, 40, 50]) =
      some [10, 20, 30, 40, 50] := by
  have h := validate_reassemble_exact [10, 20, 30, 40, 50] 2
    (by decide) (by decide)
  simpa using h

/-- Witness for C6 (amended): two samples, one joint each, fully visible;
per-sample sums 6 and 4, mean over samples 5 (= 3·1 · plain MAE 5/3). -/
theorem l1_forward_all_visible_3d_witness :
    l1JointForward true [[[1, 2, 3]], [[4, 0, 0]]] [[[0, 0, 0]], [[0, 0, 0]]]
      [[1], [1]] = .ok 5 := by
  have h := l1_forward_all_visible_3d [[[1, 2, 3]], [[4, 0, 0]]]
    [[[0, 0, 0]], [[0, 0, 0]]] [[1], [1]] 1
    (by decide) (by decide) (by decide)
    (by decide) (by decide) (by decide) (by decide)
  rw [h.1]
  norm_num [totalAbsErr, sampleAbsSum]

end PoseSpec
